import Mathlib

/-!
Verification of the Gurobi scheduler prototype.

Shallow embedding of `resources.py` and `scheduler.py`.  Python strings are
modelled by `String` / `List Char`, Python `int` by `Int` (indices by `Nat`),
Python `float` times and priorities by `ℚ`.  The external ILP solver is
modelled by a parameter giving the set of selected decision variables; the
theorems about `Scheduler.tick` are conditioned on that selection satisfying
the constraints that `tick` builds (`feasible`), or being objective-optimal
(`optimal`), exactly as the specification assumes of the solver.

The class `Observations` lives in `observation.py`, which is not part of the
sources; its fields and methods are modelled from the specification and marked
`Modelled from the spec:` in their doc comments.
-/

set_option maxHeartbeats 1000000

namespace SchedGurobi

/-- The two sites (`resources.py`, `class Site(Enum)` with members `GN`, `GS`). -/
inductive Site where
  | GN
  | GS
  deriving DecidableEq

/-- The Python enum member name, `site.name`. -/
def Site.name : Site → String
  | .GN => "GN"
  | .GS => "GS"

/-- Python enum lookup `Site[label]`: the member whose name is `label`,
a `KeyError` (modelled by `none`) otherwise. -/
def siteOfName (label : List Char) : Option Site :=
  if label = "GN".data then some Site.GN
  else if label = "GS".data then some Site.GS
  else none

/-- Python `s.split(sep)` for a one-character separator, on the character list
of the string: splits at every occurrence of `sep`; the result is always
nonempty and the separator occurs in no chunk. -/
def splitOnChar (sep : Char) : List Char → List (List Char)
  | [] => [[]]
  | c :: cs =>
    let r := splitOnChar sep cs
    if c = sep then [] :: r else (c :: r.headI) :: r.tail

theorem splitOnChar_ne_nil (sep : Char) (l : List Char) : splitOnChar sep l ≠ [] := by
  cases l with
  | nil => simp [splitOnChar]
  | cons c cs =>
    simp only [splitOnChar]
    split <;> simp

theorem splitOnChar_of_not_mem (sep : Char) (l : List Char) (h : sep ∉ l) :
    splitOnChar sep l = [l] := by
  induction l with
  | nil => rfl
  | cons c cs ih =>
    simp only [List.mem_cons, not_or] at h
    simp only [splitOnChar, ih h.2]
    rw [if_neg (fun hc => h.1 hc.symm)]
    simp

theorem splitOnChar_append (sep : Char) (xs ys : List Char) (h : sep ∉ xs) :
    splitOnChar sep (xs ++ sep :: ys) = xs :: splitOnChar sep ys := by
  induction xs with
  | nil => simp [splitOnChar]
  | cons c cs ih =>
    simp only [List.mem_cons, not_or] at h
    simp only [List.cons_append, splitOnChar]
    rw [if_neg (fun hc => h.1 hc.symm)]
    simp [ih h.2]

/-- The decimal digit character for `n` (the characters `"%d"` emits). -/
def digitChar : Nat → Char
  | 0 => '0'
  | 1 => '1'
  | 2 => '2'
  | 3 => '3'
  | 4 => '4'
  | 5 => '5'
  | 6 => '6'
  | 7 => '7'
  | 8 => '8'
  | _ => '9'

theorem digitChar_isDigit (n : Nat) : (digitChar n).isDigit = true := by
  rcases n with _ | _ | _ | _ | _ | _ | _ | _ | _ | _ <;> rfl

theorem digitChar_toNat (n : Nat) (h : n < 10) : (digitChar n).toNat = 48 + n := by
  interval_cases n <;> rfl

/-- The decimal representation of a natural number, as emitted by Python
`"%d" % n` for a nonnegative argument. -/
def natRepr (n : Nat) : List Char :=
  if h : n < 10 then [digitChar n]
  else natRepr (n / 10) ++ [digitChar (n % 10)]
  termination_by n
  decreasing_by exact Nat.div_lt_self (by omega) (by omega)

theorem natRepr_ne_nil (n : Nat) : natRepr n ≠ [] := by
  rw [natRepr]
  split <;> simp

theorem natRepr_digits (n : Nat) : ∀ c ∈ natRepr n, c.isDigit = true := by
  induction n using Nat.strong_induction_on with
  | _ n ih =>
    rw [natRepr]
    split
    · intro c hc
      rw [List.mem_singleton] at hc
      exact hc ▸ digitChar_isDigit n
    · intro c hc
      rcases List.mem_append.1 hc with h1 | h1
      · exact ih (n / 10) (Nat.div_lt_self (by omega) (by omega)) c h1
      · rw [List.mem_singleton] at h1
        exact h1 ▸ digitChar_isDigit (n % 10)

theorem isDigit_ne_underscore {c : Char} (h : c.isDigit = true) : c ≠ '_' := by
  intro hc; subst hc; exact absurd h (by decide)

theorem not_underscore_mem_natRepr (n : Nat) : '_' ∉ natRepr n := by
  intro h
  exact isDigit_ne_underscore (natRepr_digits n '_' h) rfl

/-- The numeric value of a digit string, as accumulated left to right. -/
def digitsVal (l : List Char) : Nat :=
  l.foldl (fun a c => 10 * a + (c.toNat - 48)) 0

/-- Parse a nonempty all-digit character list to its value; `none` otherwise.
This is the digit-sequence core of Python `int(str)`. -/
def parseNatDigits (s : List Char) : Option Nat :=
  if s ≠ [] ∧ s.all Char.isDigit = true then some (digitsVal s) else none

/-- Python `int(str)` on a `'_'`-free field: an optional sign followed by a
nonempty digit sequence; anything else raises `ValueError` (`none`).
(Surrounding whitespace and non-ASCII digit forms accepted by CPython are not
modelled; no claim depends on them.) -/
def parsePyInt (s : List Char) : Option Int :=
  match s with
  | [] => none
  | c :: rest =>
    if c = '-' then (parseNatDigits rest).map fun n => -(n : Int)
    else if c = '+' then (parseNatDigits rest).map fun n => (n : Int)
    else (parseNatDigits (c :: rest)).map fun n => (n : Int)

theorem foldl_digits (n : Nat) :
    ∀ a : Nat, (natRepr n).foldl (fun a c => 10 * a + (c.toNat - 48)) a =
      a * 10 ^ (natRepr n).length + n := by
  induction n using Nat.strong_induction_on with
  | _ n ih =>
    intro a
    rw [natRepr]
    split
    · next h =>
      simp [List.foldl, digitChar_toNat n h]
      omega
    · next h =>
      rw [List.foldl_append, ih (n / 10) (Nat.div_lt_self (by omega) (by omega)) a]
      simp only [List.foldl, List.length_append, List.length_singleton]
      rw [digitChar_toNat (n % 10) (Nat.mod_lt n (by omega))]
      rw [pow_succ]
      have hmod : n % 10 + 48 - 48 = n % 10 := by omega
      have hdm : 10 * (n / 10) + n % 10 = n := Nat.div_add_mod n 10
      ring_nf
      omega

theorem digitsVal_natRepr (n : Nat) : digitsVal (natRepr n) = n := by
  unfold digitsVal
  rw [foldl_digits n 0]
  simp

theorem parseNatDigits_natRepr (n : Nat) : parseNatDigits (natRepr n) = some n := by
  unfold parseNatDigits
  rw [if_pos]
  · rw [digitsVal_natRepr]
  · refine ⟨natRepr_ne_nil n, ?_⟩
    rw [List.all_eq_true]
    exact natRepr_digits n

theorem parsePyInt_natRepr (n : Nat) : parsePyInt (natRepr n) = some (n : Int) := by
  rcases hr : natRepr n with _ | ⟨c, rest⟩
  · exact absurd hr (natRepr_ne_nil n)
  · have hd : c.isDigit = true := natRepr_digits n c (hr ▸ List.mem_cons_self c rest)
    have hm : c ≠ '-' := by intro hc; subst hc; exact absurd hd (by decide)
    have hp : c ≠ '+' := by intro hc; subst hc; exact absurd hd (by decide)
    simp only [parsePyInt, if_neg hm, if_neg hp]
    rw [← hr, parseNatDigits_natRepr]
    rfl

/-- Embeds `Scheduler.to_schedule_id` (scheduler.py): `"obs_%d_%s" % (id, site.name)`. -/
def to_schedule_id (id : Nat) (site : Site) : String :=
  String.mk ("obs_".data ++ natRepr id ++ '_' :: site.name.data)

/-- Embeds `Scheduler.from_schedule_id` (scheduler.py):
`fields = scheduler_id.split('_'); return int(fields[1]), Site[fields[2]]`.
Any `IndexError`, `ValueError` or `KeyError` is a hard error (`none`). -/
def from_schedule_id (scheduler_id : String) : Option (Int × Site) :=
  let fields := splitOnChar '_' scheduler_id.data
  match fields[1]?, fields[2]? with
  | some f1, some f2 =>
    match parsePyInt f1, siteOfName f2 with
    | some n, some st => some (n, st)
    | _, _ => none
  | _, _ => none

theorem not_underscore_mem_name (site : Site) : '_' ∉ site.name.data := by
  cases site <;> decide

theorem splitOnChar_to_schedule_id (id : Nat) (site : Site) :
    splitOnChar '_' (to_schedule_id id site).data =
      ['o', 'b', 's'] :: natRepr id :: [site.name.data] := by
  have h1 : (to_schedule_id id site).data =
      ['o', 'b', 's'] ++ '_' :: (natRepr id ++ '_' :: site.name.data) := rfl
  rw [h1, splitOnChar_append '_' ['o', 'b', 's'] _ (by decide),
    splitOnChar_append '_' (natRepr id) _ (not_underscore_mem_natRepr id),
    splitOnChar_of_not_mem '_' site.name.data (not_underscore_mem_name site)]

theorem from_to_schedule_id (id : Nat) (site : Site) :
    from_schedule_id (to_schedule_id id site) = some ((id : Int), site) := by
  unfold from_schedule_id
  rw [splitOnChar_to_schedule_id]
  simp only [List.getElem?_cons_succ, List.getElem?_cons_zero]
  rw [parsePyInt_natRepr]
  cases site <;> rfl

/-- C5: the assignment-identifier encoding round-trips: for every nonnegative
integer `id` and every `Site`, `from_schedule_id (to_schedule_id id site)`
returns exactly the pair `(id, site)`. -/
theorem schedule_id_round_trip (id : Nat) (site : Site) :
    from_schedule_id (to_schedule_id id site) = some ((id : Int), site) :=
  from_to_schedule_id id site

/-- Modelled from the spec: the Job Ledger (`class Observations` in
`observation.py`, which is absent from the sources).  Fields per §3/§6 of the
specification: `num_obs`, and the per-job mappings `priority`,
`allocated_time`, `obs_time`, `used_time` and `valid_site_times`
(job id → slot index → set of eligible sites). -/
@[ext]
structure Observations where
  num_obs : Nat
  priority : Nat → ℚ
  allocated_time : Nat → ℚ
  obs_time : Nat → ℚ
  used_time : Nat → ℚ
  valid_site_times : Nat → Nat → Finset Site

/-- Modelled from the spec: `is_done(job_id)` is the derived predicate
`used_time >= obs_time` (§3: `done`). -/
def Observations.is_done (o : Observations) (id : Nat) : Bool :=
  decide (o.obs_time id ≤ o.used_time id)

/-- Modelled from the spec: the Job Ledger's per-tick advance hook
(`observations.tick(timeslot)` in `scheduler.py`; `advance(slot_index)` in
§6).  Per §5 only the Tick Controller's Apply step mutates `used_time`; the
hook updates only slot-derived state, none of which is part of this model, so
it is the identity here. -/
def Observations.tick (o : Observations) (_timeslot : Nat) : Observations := o

/-- Modelled from the spec: the `Observations()` constructor — an empty
ledger. -/
def Observations.empty : Observations :=
  ⟨0, fun _ => 0, fun _ => 0, fun _ => 0, fun _ => 0, fun _ _ => ∅⟩

/-- The `class Scheduler` (scheduler.py): the fields set by `__init__`. -/
@[ext]
structure Scheduler where
  timeslots : Int
  timeslot_length : ℚ
  observations : Observations

/-- Embeds `Scheduler.__init__(timeslots, timeslot_length=300)`: stores the two
parameters and a fresh empty `Observations`; the body performs no validation
of either parameter. -/
def Scheduler.init (timeslots : Int) (timeslot_length : ℚ := 300) : Scheduler :=
  ⟨timeslots, timeslot_length, Observations.empty⟩

/-- Embeds `Scheduler.do_work` (scheduler.py):
`self.observations.used_time[Scheduler.from_schedule_id(scheduler_id)[0]] += self.timeslot_length`.
A decode failure is a hard error (`none`). -/
def Scheduler.do_work (sc : Scheduler) (scheduler_id : String) : Option Scheduler :=
  (from_schedule_id scheduler_id).map fun p =>
    { sc with observations :=
        { sc.observations with used_time := fun j =>
            if (j : Int) = p.1 then sc.observations.used_time j + sc.timeslot_length
            else sc.observations.used_time j } }

/-- The decision variables `Scheduler.tick` creates for one not-done job id:
its GN variable (if GN is eligible this slot) then its GS variable (if GS is
eligible this slot); none when the job is done. -/
def varsOf (o : Observations) (timeslot id : Nat) : List (Nat × Site) :=
  if o.is_done id then []
  else
    (if Site.GN ∈ o.valid_site_times id timeslot then [(id, Site.GN)] else []) ++
    (if Site.GS ∈ o.valid_site_times id timeslot then [(id, Site.GS)] else [])

/-- All decision variables created by `Scheduler.tick`, in creation order
(= Gurobi's `getVars` order): job ids increasing, GN before GS. -/
def varOrder (o : Observations) (timeslot : Nat) : List (Nat × Site) :=
  (List.range o.num_obs).flatMap (varsOf o timeslot)

/-- The selected variables, in creation order: the model's variables whose
solution value `X` equals 1, as decided by the solver's selection `S`. -/
def selPairs (o : Observations) (timeslot : Nat) (S : Finset (Nat × Site)) :
    List (Nat × Site) :=
  (varOrder o timeslot).filter fun p => decide (p ∈ S)

/-- The list `current_scheduling` in `Scheduler.tick`: the `VarName`s of the selected
variables. -/
def selNames (o : Observations) (timeslot : Nat) (S : Finset (Nat × Site)) :
    List String :=
  (selPairs o timeslot S).map fun p => to_schedule_id p.1 p.2

/-- Embeds `Scheduler.tick(timeslot)` (scheduler.py): advance the ledger, formulate
the ILP, let the solver pick the selection `S` (the external Gurobi call,
modelled as a parameter), then `do_work` on each selected variable name and
return the list of those names. -/
def Scheduler.tick (sc : Scheduler) (timeslot : Nat) (S : Finset (Nat × Site)) :
    Option (Scheduler × List String) :=
  let sc1 := { sc with observations := sc.observations.tick timeslot }
  let names := selNames sc1.observations timeslot S
  (names.foldlM Scheduler.do_work sc1).map fun sc2 => (sc2, names)

/-- The constraints `Scheduler.tick` hands to the solver, as a predicate on
the selected set `S`:
* only created variables can be selected;
* `c_not_both_<id>`: a job eligible at both sites this slot is selected at
  most once (`vs[(id,GN)] + vs[(id,GS)] <= 1`, added when `resource_count == 2`);
* the site constraints `sum(gn_vs) <= 1` and `sum(gs_vs) <= 1`. -/
def feasible (o : Observations) (timeslot : Nat) (S : Finset (Nat × Site)) : Prop :=
  (∀ p ∈ S, p ∈ varOrder o timeslot) ∧
  (∀ id < o.num_obs, o.is_done id = false →
    Site.GN ∈ o.valid_site_times id timeslot →
    Site.GS ∈ o.valid_site_times id timeslot →
    ¬((id, Site.GN) ∈ S ∧ (id, Site.GS) ∈ S)) ∧
  (S.filter fun p => p.2 = Site.GN).card ≤ 1 ∧
  (S.filter fun p => p.2 = Site.GS).card ≤ 1

instance (o : Observations) (timeslot : Nat) (S : Finset (Nat × Site)) :
    Decidable (feasible o timeslot S) :=
  decidable_of_iff
    ((∀ p ∈ S, p ∈ varOrder o timeslot) ∧
      (∀ id < o.num_obs, ¬(o.is_done id = false ∧
        Site.GN ∈ o.valid_site_times id timeslot ∧
        Site.GS ∈ o.valid_site_times id timeslot ∧
        (id, Site.GN) ∈ S ∧ (id, Site.GS) ∈ S)) ∧
      (S.filter fun p => p.2 = Site.GN).card ≤ 1 ∧
      (S.filter fun p => p.2 = Site.GS).card ≤ 1)
    (by
      unfold feasible
      refine and_congr Iff.rfl (and_congr ?_ Iff.rfl)
      refine forall_congr' fun id => forall_congr' fun _ => ?_
      tauto)

/-- The objective `Scheduler.tick` maximizes:
`sum(priority[id] * vs[(id, res)])`, evaluated over a selected set. -/
def objective (o : Observations) (S : Finset (Nat × Site)) : ℚ :=
  S.sum fun p => o.priority p.1

/-- An optimal solver outcome: feasible and of maximal objective value. -/
def optimal (o : Observations) (timeslot : Nat) (S : Finset (Nat × Site)) : Prop :=
  feasible o timeslot S ∧
  ∀ S2, feasible o timeslot S2 → objective o S2 ≤ objective o S

/-- The `while timeslot < self.timeslots` loop of `Scheduler.schedule`,
with the remaining iteration count as fuel and the solver's per-slot
selection as a parameter. -/
def scheduleAux (sel : Nat → Finset (Nat × Site)) :
    Nat → Nat → Scheduler → Option (Scheduler × List (List String))
  | 0, _, sc => some (sc, [])
  | k + 1, timeslot, sc =>
    match sc.tick timeslot (sel timeslot) with
    | none => none
    | some (sc1, names) =>
      match scheduleAux sel k (timeslot + 1) sc1 with
      | none => none
      | some (sc2, rest) => some (sc2, names :: rest)

/-- Embeds `Scheduler.schedule` (scheduler.py): run `tick` for
`timeslot = 0, 1, ..., timeslots - 1`, collecting the per-slot schedules. -/
def Scheduler.schedule (sc : Scheduler) (sel : Nat → Finset (Nat × Site)) :
    Option (Scheduler × List (List String)) :=
  scheduleAux sel sc.timeslots.toNat 0 sc

theorem mem_varsOf (o : Observations) (timeslot id : Nat) (x : Nat × Site) :
    x ∈ varsOf o timeslot id ↔
      x.1 = id ∧ o.is_done id = false ∧ x.2 ∈ o.valid_site_times id timeslot := by
  obtain ⟨xi, xs⟩ := x
  unfold varsOf
  by_cases hd : o.is_done id = true
  · simp [hd]
  · have hdf : o.is_done id = false := by simpa using hd
    by_cases hGN : Site.GN ∈ o.valid_site_times id timeslot <;>
      by_cases hGS : Site.GS ∈ o.valid_site_times id timeslot <;>
        cases xs <;>
          simp [hdf, hGN, hGS]

theorem varsOf_fst {o : Observations} {timeslot id : Nat} {x : Nat × Site}
    (h : x ∈ varsOf o timeslot id) : x.1 = id :=
  ((mem_varsOf o timeslot id x).1 h).1

theorem mem_varOrder (o : Observations) (timeslot : Nat) (p : Nat × Site) :
    p ∈ varOrder o timeslot ↔
      p.1 < o.num_obs ∧ o.is_done p.1 = false ∧
        p.2 ∈ o.valid_site_times p.1 timeslot := by
  unfold varOrder
  rw [List.mem_flatMap]
  constructor
  · rintro ⟨id, hid, hm⟩
    rw [List.mem_range] at hid
    rw [mem_varsOf] at hm
    obtain ⟨h1, h2, h3⟩ := hm
    subst h1
    exact ⟨hid, h2, h3⟩
  · rintro ⟨h1, h2, h3⟩
    exact ⟨p.1, List.mem_range.2 h1, (mem_varsOf o timeslot p.1 p).2 ⟨rfl, h2, h3⟩⟩

theorem varOrder_nodup (o : Observations) (timeslot : Nat) :
    (varOrder o timeslot).Nodup := by
  unfold varOrder
  rw [List.nodup_flatMap]
  constructor
  · intro id _
    unfold varsOf
    split
    · simp
    · split <;> split <;> simp
  · refine List.Pairwise.imp ?_ (List.pairwise_lt_range o.num_obs)
    intro a b hab
    simp only [Function.onFun, List.Disjoint]
    intro x hxa hxb
    have h1 := varsOf_fst hxa
    have h2 := varsOf_fst hxb
    omega

theorem do_work_encoded (sc : Scheduler) (j : Nat) (site : Site) :
    sc.do_work (to_schedule_id j site) =
      some { sc with observations :=
        { sc.observations with used_time := fun i =>
            if i = j then sc.observations.used_time i + sc.timeslot_length
            else sc.observations.used_time i } } := by
  unfold Scheduler.do_work
  rw [from_to_schedule_id]
  refine congrArg some (Scheduler.ext rfl rfl (Observations.ext rfl rfl rfl rfl ?_ rfl))
  funext i
  simp [Nat.cast_inj]

theorem foldlM_do_work (P : List (Nat × Site)) : ∀ sc : Scheduler,
    ((P.map fun p => to_schedule_id p.1 p.2).foldlM Scheduler.do_work sc) =
      some { sc with observations :=
        { sc.observations with used_time := fun i =>
            sc.observations.used_time i +
              ((P.countP fun p => decide (p.1 = i) : Nat) : ℚ) *
                sc.timeslot_length } } := by
  induction P with
  | nil =>
    intro sc
    simp only [List.map_nil, List.foldlM_nil, List.countP_nil]
    refine congrArg some (Scheduler.ext rfl rfl
      (Observations.ext rfl rfl rfl rfl ?_ rfl))
    funext i
    simp
  | cons p P ih =>
    intro sc
    rw [List.map_cons, List.foldlM_cons, do_work_encoded sc p.1 p.2]
    have hb : ∀ (x : Scheduler) (f : Scheduler → Option Scheduler),
        (some x >>= f) = f x := fun x f => rfl
    rw [hb, ih]
    refine congrArg some (Scheduler.ext rfl rfl
      (Observations.ext rfl rfl rfl rfl ?_ rfl))
    funext i
    dsimp only
    rw [List.countP_cons]
    by_cases h : p.1 = i
    · subst h
      rw [decide_eq_true rfl, if_pos rfl]
      push_cast
      rw [if_pos rfl]
      ring
    · rw [if_neg (fun hh => h hh.symm), decide_eq_false h]
      push_cast
      ring

/-- The state `Scheduler.tick` leaves behind: each job's `used_time` gains one
`timeslot_length` per selected variable that decodes to it. -/
def tickState (sc : Scheduler) (timeslot : Nat) (S : Finset (Nat × Site)) : Scheduler :=
  { sc with observations :=
      { sc.observations with used_time := fun i =>
          sc.observations.used_time i +
            (((selPairs sc.observations timeslot S).countP
                fun p => decide (p.1 = i) : Nat) : ℚ) *
              sc.timeslot_length } }

/-- Key unfolding: `Scheduler.tick` always succeeds, applies one `timeslot_length` increment
to each selected job, and returns the selected variable names. -/
theorem tick_eq (sc : Scheduler) (timeslot : Nat) (S : Finset (Nat × Site)) :
    sc.tick timeslot S =
      some (tickState sc timeslot S, selNames sc.observations timeslot S) := by
  show (((selPairs sc.observations timeslot S).map fun p => to_schedule_id p.1 p.2).foldlM
      Scheduler.do_work sc).map (fun sc2 => (sc2, selNames sc.observations timeslot S)) = _
  rw [foldlM_do_work]
  rfl

theorem mem_selPairs (o : Observations) (timeslot : Nat) (S : Finset (Nat × Site))
    (p : Nat × Site) : p ∈ selPairs o timeslot S ↔ p ∈ varOrder o timeslot ∧ p ∈ S := by
  unfold selPairs
  rw [List.mem_filter]
  simp

theorem selPairs_nodup (o : Observations) (timeslot : Nat) (S : Finset (Nat × Site)) :
    (selPairs o timeslot S).Nodup :=
  (varOrder_nodup o timeslot).filter _

/-- Under the constraints of the formulation, two distinct selected variables
name distinct jobs and distinct sites. -/
theorem sel_distinct {o : Observations} {timeslot : Nat} {S : Finset (Nat × Site)}
    (hS : feasible o timeslot S) {a b : Nat × Site}
    (ha : a ∈ selPairs o timeslot S) (hb : b ∈ selPairs o timeslot S) (hne : a ≠ b) :
    a.1 ≠ b.1 ∧ a.2 ≠ b.2 := by
  obtain ⟨haV, haS⟩ := (mem_selPairs o timeslot S a).1 ha
  obtain ⟨hbV, hbS⟩ := (mem_selPairs o timeslot S b).1 hb
  have haV2 := (mem_varOrder o timeslot a).1 haV
  have hbV2 := (mem_varOrder o timeslot b).1 hbV
  constructor
  · intro hfst
    have hsne : a.2 ≠ b.2 := fun hsnd => hne (Prod.ext_iff.2 ⟨hfst, hsnd⟩)
    have hnb := hS.2.1 a.1 haV2.1 haV2.2.1
    rcases ha2 : a.2 with _ | _ <;> rcases hb2 : b.2 with _ | _
    · exact hsne (ha2.trans hb2.symm)
    · -- a at GN, b at GS, same job
      refine hnb ?_ ?_ ⟨?_, ?_⟩
      · rw [← ha2]; exact haV2.2.2
      · rw [hfst, ← hb2]; exact hbV2.2.2
      · rw [← ha2]
        have : a = (a.1, a.2) := rfl
        rw [← this]; exact haS
      · rw [hfst, ← hb2]
        have : b = (b.1, b.2) := rfl
        rw [← this]; exact hbS
    · -- a at GS, b at GN, same job
      refine hnb ?_ ?_ ⟨?_, ?_⟩
      · rw [hfst, ← hb2]; exact hbV2.2.2
      · rw [← ha2]; exact haV2.2.2
      · rw [hfst, ← hb2]
        have : b = (b.1, b.2) := rfl
        rw [← this]; exact hbS
      · rw [← ha2]
        have : a = (a.1, a.2) := rfl
        rw [← this]; exact haS
    · exact hsne (ha2.trans hb2.symm)
  · intro hsnd
    have hfne : a.1 ≠ b.1 := fun hfst => hne (Prod.ext_iff.2 ⟨hfst, hsnd⟩)
    have hcard : 1 < (S.filter fun p => p.2 = a.2).card :=
      Finset.one_lt_card.2
        ⟨a, Finset.mem_filter.2 ⟨haS, rfl⟩, b, Finset.mem_filter.2 ⟨hbS, hsnd.symm⟩, hne⟩
    rcases ha2 : a.2 with _ | _
    · rw [ha2] at hcard
      exact absurd hS.2.2.1 (by omega)
    · rw [ha2] at hcard
      exact absurd hS.2.2.2 (by omega)

/-- Under the constraints, no job is selected more than once in a tick. -/
theorem selCount_le_one {o : Observations} {timeslot : Nat} {S : Finset (Nat × Site)}
    (hS : feasible o timeslot S) (j : Nat) :
    (selPairs o timeslot S).countP (fun p => decide (p.1 = j)) ≤ 1 := by
  by_contra hc
  rw [not_le, List.countP_eq_length_filter] at hc
  rcases hl : (selPairs o timeslot S).filter (fun p => decide (p.1 = j)) with _ | ⟨a, l1⟩
  · rw [hl] at hc; simp at hc
  · rcases hl1 : l1 with _ | ⟨b, l2⟩
    · rw [hl, hl1] at hc; simp at hc
    · have hnd : (a :: b :: l2).Nodup := by
        rw [← hl1, ← hl]
        exact (selPairs_nodup o timeslot S).filter _
      have hab : a ≠ b := by
        intro hab
        rw [hab] at hnd
        simp [List.nodup_cons] at hnd
      have hamem : a ∈ (selPairs o timeslot S).filter (fun p => decide (p.1 = j)) := by
        rw [hl]; simp
      have hbmem : b ∈ (selPairs o timeslot S).filter (fun p => decide (p.1 = j)) := by
        rw [hl, hl1]; simp
      rw [List.mem_filter] at hamem hbmem
      have haj : a.1 = j := by simpa using hamem.2
      have hbj : b.1 = j := by simpa using hbmem.2
      exact (sel_distinct hS hamem.1 hbmem.1 hab).1 (haj.trans hbj.symm)

/-- A done job is never selected by a feasible-or-not selection: it has no
decision variable, so no selected variable can decode to it. -/
theorem selCount_done_eq_zero (o : Observations) (timeslot : Nat)
    (S : Finset (Nat × Site)) (j : Nat) (hd : o.is_done j = true) :
    (selPairs o timeslot S).countP (fun p => decide (p.1 = j)) = 0 := by
  rw [List.countP_eq_zero]
  intro a ha
  have hv := ((mem_selPairs o timeslot S a).1 ha).1
  have hv2 := (mem_varOrder o timeslot a).1 hv
  intro hp
  have haj : a.1 = j := of_decide_eq_true hp
  have hdf : o.is_done j = false := haj ▸ hv2.2.1
  exact absurd (hd.symm.trans hdf) (by decide)

theorem done_not_in_varOrder (o : Observations) (timeslot j : Nat)
    (hd : o.is_done j = true) : ∀ site, (j, site) ∉ varOrder o timeslot := by
  intro site hm
  have hm2 := (mem_varOrder o timeslot (j, site)).1 hm
  have hdf : o.is_done j = false := hm2.2.1
  exact absurd (hd.symm.trans hdf) (by decide)

/-- If a tick selects nothing, the state is unchanged and the returned
schedule is empty. -/
theorem tick_of_selPairs_nil (sc : Scheduler) (timeslot : Nat)
    (S : Finset (Nat × Site)) (hsp : selPairs sc.observations timeslot S = []) :
    sc.tick timeslot S = some (sc, []) := by
  rw [tick_eq]
  refine congrArg some (Prod.ext_iff.2 ⟨?_, ?_⟩)
  · refine Scheduler.ext rfl rfl (Observations.ext rfl rfl rfl rfl ?_ rfl)
    funext i
    simp [tickState, hsp]
  · show selNames sc.observations timeslot S = []
    unfold selNames
    rw [hsp]
    rfl

theorem scheduleAux_succ (sel : Nat → Finset (Nat × Site)) (k timeslot : Nat)
    (sc : Scheduler) :
    scheduleAux sel (k + 1) timeslot sc =
      match scheduleAux sel k (timeslot + 1) (tickState sc timeslot (sel timeslot)) with
      | none => none
      | some (sc2, rest) =>
        some (sc2, selNames sc.observations timeslot (sel timeslot) :: rest) := by
  show (match sc.tick timeslot (sel timeslot) with
    | none => none
    | some (sc1, names) =>
      match scheduleAux sel k (timeslot + 1) sc1 with
      | none => none
      | some (sc2, rest) => some (sc2, names :: rest)) = _
  rw [tick_eq]

theorem decode_selNames (o : Observations) (timeslot : Nat) (S : Finset (Nat × Site)) :
    (selNames o timeslot S).filterMap from_schedule_id =
      (selPairs o timeslot S).map fun p => ((p.1 : Int), p.2) := by
  unfold selNames
  rw [List.filterMap_map]
  have hc : (from_schedule_id ∘ fun p : Nat × Site => to_schedule_id p.1 p.2) =
      fun p : Nat × Site => some ((p.1 : Int), p.2) :=
    funext fun p => from_to_schedule_id p.1 p.2
  rw [hc]
  rw [show (fun p : Nat × Site => some (((p.1 : Int)), p.2)) =
    some ∘ (fun p : Nat × Site => ((p.1 : Int), p.2)) from rfl]
  rw [List.filterMap_eq_map]

/-- C1: for every slot, assuming the solver's selection satisfies the
constraints built in `tick`, the `(job_id, site)` pairs decoded from the
assignment list `Scheduler.tick` returns are pairwise distinct in both the
job id and the site: no site and no job appears more than once. -/
theorem tick_exclusivity (sc : Scheduler) (timeslot : Nat) (S : Finset (Nat × Site))
    (sc2 : Scheduler) (L : List String)
    (hS : feasible sc.observations timeslot S)
    (h : sc.tick timeslot S = some (sc2, L)) :
    (L.filterMap from_schedule_id).Pairwise fun p q => p.1 ≠ q.1 ∧ p.2 ≠ q.2 := by
  rw [tick_eq] at h
  obtain ⟨h1, h2⟩ := Prod.mk.inj (Option.some.inj h)
  rw [← h2, decode_selNames]
  rw [List.pairwise_map]
  refine List.Pairwise.imp_of_mem ?_ (selPairs_nodup sc.observations timeslot S)
  intro a b ha hb hne
  obtain ⟨hfst, hsnd⟩ := sel_distinct hS ha hb hne
  refine ⟨fun hc => hfst ?_, hsnd⟩
  have hc2 : (a.1 : Int) = (b.1 : Int) := hc
  exact_mod_cast hc2

/-- C2: every string in the assignment list `Scheduler.tick` returns decodes
to a pair `(j, site)` with `site ∈ valid_site_times[j][timeslot]`: variables
are created only for eligible sites, so no returned assignment names an
ineligible site. -/
theorem tick_eligibility (sc : Scheduler) (timeslot : Nat) (S : Finset (Nat × Site))
    (sc2 : Scheduler) (L : List String)
    (h : sc.tick timeslot S = some (sc2, L)) :
    ∀ s ∈ L, ∃ (j : Nat) (site : Site),
      from_schedule_id s = some ((j : Int), site) ∧
      site ∈ sc.observations.valid_site_times j timeslot := by
  rw [tick_eq] at h
  obtain ⟨h1, h2⟩ := Prod.mk.inj (Option.some.inj h)
  intro s hs
  rw [← h2] at hs
  unfold selNames at hs
  rw [List.mem_map] at hs
  obtain ⟨p, hp, rfl⟩ := hs
  have hv := ((mem_selPairs sc.observations timeslot S p).1 hp).1
  have hv2 := (mem_varOrder sc.observations timeslot p).1 hv
  exact ⟨p.1, p.2, from_to_schedule_id p.1 p.2, hv2.2.2⟩

/-- C3: once `is_done(job_id)` is true at the start of some tick, it remains
true after any number of further ticks (`used_time` is not touched for the
job and `obs_time` is unchanged), the job has no decision variable in the
formulation, and the job never appears in any returned assignment list. -/
theorem done_stable (sel : Nat → Finset (Nat × Site)) (k timeslot : Nat)
    (sc sc2 : Scheduler) (Ls : List (List String)) (j : Nat)
    (h : scheduleAux sel k timeslot sc = some (sc2, Ls))
    (hd : sc.observations.is_done j = true) :
    sc2.observations.is_done j = true ∧
    (∀ site, (j, site) ∉ varOrder sc.observations timeslot) ∧
    ∀ L ∈ Ls, ∀ s ∈ L, ∀ site, from_schedule_id s ≠ some ((j : Int), site) := by
  induction k generalizing timeslot sc sc2 Ls with
  | zero =>
    obtain ⟨h1, h2⟩ := Prod.mk.inj (Option.some.inj h)
    subst h1
    subst h2
    exact ⟨hd, done_not_in_varOrder sc.observations timeslot j hd, by simp⟩
  | succ k ih =>
    rw [scheduleAux_succ] at h
    rcases hres : scheduleAux sel k (timeslot + 1)
        (tickState sc timeslot (sel timeslot)) with _ | ⟨sc3, rest⟩
    · rw [hres] at h
      exact absurd h (by simp)
    · rw [hres] at h
      obtain ⟨h1, h2⟩ := Prod.mk.inj (Option.some.inj h)
      subst h1
      subst h2
      have hd2 : (tickState sc timeslot (sel timeslot)).observations.is_done j = true := by
        show decide _ = true
        unfold tickState
        dsimp only
        rw [selCount_done_eq_zero sc.observations timeslot (sel timeslot) j hd]
        simp only [Nat.cast_zero, zero_mul, add_zero]
        exact hd
      obtain ⟨ih1, _, ih3⟩ := ih (timeslot + 1) (tickState sc timeslot (sel timeslot))
        _ rest hres hd2
      refine ⟨ih1, done_not_in_varOrder sc.observations timeslot j hd, ?_⟩
      intro L hL s hs site heq
      rcases List.mem_cons.1 hL with hL1 | hL2
      · subst hL1
        unfold selNames at hs
        rw [List.mem_map] at hs
        obtain ⟨p, hp, rfl⟩ := hs
        rw [from_to_schedule_id] at heq
        obtain ⟨hfst, _⟩ := Prod.mk.inj (Option.some.inj heq)
        have hj : p.1 = j := by exact_mod_cast hfst
        have hv := ((mem_selPairs sc.observations timeslot (sel timeslot) p).1 hp).1
        have hv2 := (mem_varOrder sc.observations timeslot p).1 hv
        have hdf : sc.observations.is_done j = false := hj ▸ hv2.2.1
        exact absurd (hd.symm.trans hdf) (by decide)
      · exact ih3 L hL2 s hs site heq

/-- C4: across one tick, assuming the solver's selection satisfies the
constraints, every job's `used_time` is either unchanged or increased by
exactly one `timeslot_length`. -/
theorem tick_used_time_step (sc : Scheduler) (timeslot : Nat) (S : Finset (Nat × Site))
    (sc2 : Scheduler) (L : List String) (j : Nat)
    (hS : feasible sc.observations timeslot S)
    (h : sc.tick timeslot S = some (sc2, L)) :
    sc2.observations.used_time j = sc.observations.used_time j ∨
    sc2.observations.used_time j =
      sc.observations.used_time j + sc.timeslot_length := by
  rw [tick_eq] at h
  obtain ⟨h1, h2⟩ := Prod.mk.inj (Option.some.inj h)
  rw [← h1]
  show sc.observations.used_time j + _ = _ ∨
    sc.observations.used_time j + _ = _
  have hc := selCount_le_one hS j
  rcases Nat.le_one_iff_eq_zero_or_eq_one.1 hc with hc0 | hc1
  · left
    rw [hc0]
    simp
  · right
    rw [hc1]
    simp

/-- C8: if every not-yet-done job's eligibility set for the slot is empty,
`Scheduler.tick` succeeds, returns the empty assignment list, and leaves the
state (in particular every job's `used_time`) unchanged. -/
theorem tick_no_eligible (sc : Scheduler) (timeslot : Nat) (S : Finset (Nat × Site))
    (h : ∀ j < sc.observations.num_obs, sc.observations.is_done j = false →
      sc.observations.valid_site_times j timeslot = ∅) :
    sc.tick timeslot S = some (sc, []) := by
  apply tick_of_selPairs_nil
  have hvo : varOrder sc.observations timeslot = [] := by
    rw [List.eq_nil_iff_forall_not_mem]
    intro p hp
    have hp2 := (mem_varOrder sc.observations timeslot p).1 hp
    obtain ⟨h1, h2, h3⟩ := hp2
    rw [h p.1 h1 h2] at h3
    exact absurd h3 (Finset.not_mem_empty p.2)
  unfold selPairs
  rw [hvo]
  rfl

/-- C6: with exactly two not-done jobs both eligible only at the same single
site, priorities 1 and 2, any selection that is optimal for the tick's
priority-weighted objective selects exactly the priority-2 job at that site,
so `tick` returns exactly that one assignment and the priority-1 job appears
in none. -/
theorem tick_priority_wins (sc : Scheduler) (timeslot : Nat) (st : Site)
    (S : Finset (Nat × Site))
    (hn : sc.observations.num_obs = 2)
    (hd0 : sc.observations.is_done 0 = false)
    (hd1 : sc.observations.is_done 1 = false)
    (hv0 : sc.observations.valid_site_times 0 timeslot = {st})
    (hv1 : sc.observations.valid_site_times 1 timeslot = {st})
    (hp0 : sc.observations.priority 0 = 1)
    (hp1 : sc.observations.priority 1 = 2)
    (hopt : optimal sc.observations timeslot S) :
    ∃ sc2, sc.tick timeslot S = some (sc2, [to_schedule_id 1 st]) := by
  obtain ⟨hfeas, hmax⟩ := hopt
  have hVO : varOrder sc.observations timeslot = [(0, st), (1, st)] := by
    unfold varOrder varsOf
    rw [hn]
    cases st <;>
      simp [List.range_succ, hd0, hd1, hv0, hv1]
  have hsub : ∀ p ∈ S, p = (0, st) ∨ p = (1, st) := by
    intro p hp
    have hv := hfeas.1 p hp
    rw [hVO] at hv
    simpa using hv
  have hfeas1 : feasible sc.observations timeslot {(1, st)} := by
    refine ⟨?_, ?_, ?_, ?_⟩
    · intro p hp
      rw [Finset.mem_singleton] at hp
      subst hp
      rw [hVO]
      simp
    · intro id hid hdone hGN hGS hboth
      obtain ⟨hA, hB⟩ := hboth
      rw [Finset.mem_singleton] at hA hB
      have h1 : Site.GN = st := congrArg Prod.snd hA
      have h2 : Site.GS = st := congrArg Prod.snd hB
      exact absurd (h1.trans h2.symm) (by decide)
    · calc (({(1, st)} : Finset (Nat × Site)).filter fun p => p.2 = Site.GN).card
          ≤ ({(1, st)} : Finset (Nat × Site)).card := Finset.card_filter_le _ _
        _ = 1 := Finset.card_singleton _
    · calc (({(1, st)} : Finset (Nat × Site)).filter fun p => p.2 = Site.GS).card
          ≤ ({(1, st)} : Finset (Nat × Site)).card := Finset.card_filter_le _ _
        _ = 1 := Finset.card_singleton _
  have hobj : 2 ≤ objective sc.observations S := by
    have h := hmax _ hfeas1
    have h2 : objective sc.observations {(1, st)} = 2 := by
      unfold objective
      rw [Finset.sum_singleton, hp1]
    rw [h2] at h
    exact h
  have h1S : (1, st) ∈ S := by
    by_contra h1S
    have hsub0 : S ⊆ {(0, st)} := by
      intro p hp
      rcases hsub p hp with h | h
      · rw [Finset.mem_singleton]; exact h
      · exact absurd (h ▸ hp) h1S
    have hle : objective sc.observations S ≤ 1 := by
      rcases Finset.subset_singleton_iff.1 hsub0 with h | h <;> rw [h] <;>
        simp [objective, hp0]
    linarith
  have h0S : (0, st) ∉ S := by
    intro h0S
    have hcard : 1 < (S.filter fun p => p.2 = st).card :=
      Finset.one_lt_card.2
        ⟨(0, st), Finset.mem_filter.2 ⟨h0S, rfl⟩,
          (1, st), Finset.mem_filter.2 ⟨h1S, rfl⟩, by simp⟩
    rcases hst : st with _ | _
    · rw [hst] at hcard
      exact absurd hfeas.2.2.1 (by omega)
    · rw [hst] at hcard
      exact absurd hfeas.2.2.2 (by omega)
  have hSeq : S = {(1, st)} := by
    apply Finset.Subset.antisymm
    · intro p hp
      rcases hsub p hp with h | h
      · exact absurd (h ▸ hp) h0S
      · rw [Finset.mem_singleton]; exact h
    · intro p hp
      rw [Finset.mem_singleton] at hp
      subst hp
      exact h1S
  have hsel : selPairs sc.observations timeslot S = [(1, st)] := by
    unfold selPairs
    rw [hVO, hSeq]
    simp [List.filter]
  have hnames : selNames sc.observations timeslot S = [to_schedule_id 1 st] := by
    unfold selNames
    rw [hsel]
    rfl
  exact ⟨tickState sc timeslot S, by rw [tick_eq, hnames]⟩

/-- C7 counterexample: `Scheduler.__init__` performs no validation, so a
non-positive `timeslots` (here 0 and -1) and a non-positive
`timeslot_length` (here 0) are accepted and stored, not rejected with an
error. -/
theorem init_accepts_nonpositive :
    (Scheduler.init 0 300).timeslots = 0 ∧
    (Scheduler.init (-1) 300).timeslots = -1 ∧
    (Scheduler.init 2 0).timeslot_length = 0 ∧
    (Scheduler.init 0 300).observations = Observations.empty :=
  ⟨rfl, rfl, rfl, rfl⟩

/-- C7 amended: a non-positive `timeslots` or `timeslot_length` is accepted
by `Scheduler.__init__` and stored as-is; no setup-time rejection exists.
With non-positive `timeslots`, `schedule()` then runs zero ticks and returns
the empty schedule unchanged. -/
theorem init_no_validation (timeslots : Int) (len : ℚ)
    (sel : Nat → Finset (Nat × Site)) (h : timeslots ≤ 0) :
    (Scheduler.init timeslots len).timeslots = timeslots ∧
    (Scheduler.init timeslots len).timeslot_length = len ∧
    (Scheduler.init timeslots len).schedule sel =
      some (Scheduler.init timeslots len, []) := by
  refine ⟨rfl, rfl, ?_⟩
  unfold Scheduler.schedule
  have h0 : (Scheduler.init timeslots len).timeslots.toNat = 0 :=
    Int.toNat_of_nonpos h
  rw [h0]
  rfl

/-- C9 counterexample: `"x_0_GN"` is not in the image of `to_schedule_id`
(every encoded identifier starts with `"obs_"`), yet `from_schedule_id`
decodes it to `(0, GN)` instead of failing: the decoder never validates the
leading field. -/
theorem from_schedule_id_accepts_non_image :
    from_schedule_id "x_0_GN" = some (0, Site.GN) ∧
    ∀ (id : Nat) (site : Site), to_schedule_id id site ≠ "x_0_GN" := by
  constructor
  · decide
  · intro id site h
    have hdata := congrArg String.data h
    have h1 : (to_schedule_id id site).data =
        'o' :: ('b' :: 's' :: '_' :: (natRepr id ++ '_' :: site.name.data)) := rfl
    have h2 : ("x_0_GN" : String).data = ['x', '_', '0', '_', 'G', 'N'] := rfl
    rw [h1, h2] at hdata
    exact absurd (List.cons.inj hdata).1 (by decide)

/-- A general decode lemma: the decoder only looks at the second and third
`'_'`-separated fields; the leading field is arbitrary. -/
theorem decode_fields (f0 : List Char) (h : '_' ∉ f0) (id : Nat) (site : Site) :
    from_schedule_id (String.mk (f0 ++ '_' :: (natRepr id ++ '_' :: site.name.data))) =
      some ((id : Int), site) := by
  unfold from_schedule_id
  have hsplit : splitOnChar '_'
      (String.mk (f0 ++ '_' :: (natRepr id ++ '_' :: site.name.data))).data =
      f0 :: natRepr id :: [site.name.data] := by
    show splitOnChar '_' (f0 ++ '_' :: (natRepr id ++ '_' :: site.name.data)) = _
    rw [splitOnChar_append '_' f0 _ h,
      splitOnChar_append '_' (natRepr id) _ (not_underscore_mem_natRepr id),
      splitOnChar_of_not_mem '_' site.name.data (not_underscore_mem_name site)]
  rw [hsplit]
  simp only [List.getElem?_cons_succ, List.getElem?_cons_zero]
  rw [parsePyInt_natRepr]
  cases site <;> rfl

/-- C9 amended: `from_schedule_id` fails with a hard error only when the
string lacks three `'_'`-separated fields, an integer-literal second field,
or a `Site`-name third field; the encoder's `"obs"` prefix is never checked,
so any string `<field>_<id>_<site name>` with a `'_'`-free leading field —
in or out of the encoder's image — decodes successfully to `(id, site)`. -/
theorem from_schedule_id_ignores_leading_field (f0 : List Char) (id : Nat)
    (site : Site) (h : '_' ∉ f0) :
    from_schedule_id (String.mk (f0 ++ '_' :: (natRepr id ++ '_' :: site.name.data))) =
      some ((id : Int), site) :=
  decode_fields f0 h id site

/-- C10: `Scheduler.do_work` adds the full `timeslot_length` to the selected
job's `used_time` unconditionally — `used_time` is not capped at `obs_time`:
when the remaining time `obs_time - used_time` is positive but smaller than
`timeslot_length`, the job was not yet done, and after the increment its
`used_time` strictly exceeds its `obs_time`. -/
theorem do_work_no_cap (sc : Scheduler) (j : Nat) (site : Site)
    (h1 : sc.observations.used_time j < sc.observations.obs_time j)
    (h2 : sc.observations.obs_time j <
      sc.observations.used_time j + sc.timeslot_length) :
    sc.observations.is_done j = false ∧
    ∃ sc2, sc.do_work (to_schedule_id j site) = some sc2 ∧
      sc2.observations.used_time j =
        sc.observations.used_time j + sc.timeslot_length ∧
      sc2.observations.obs_time j < sc2.observations.used_time j := by
  refine ⟨decide_eq_false (not_le.2 h1), _, do_work_encoded sc j site, ?_, ?_⟩
  · dsimp only
    rw [if_pos rfl]
  · dsimp only
    rw [if_pos rfl]
    exact h2

/-- A concrete two-job ledger: priorities 1 and 2, both jobs needing 600 s,
nothing used yet, both eligible only at GN in every slot. -/
def oW : Observations where
  num_obs := 2
  priority := fun id => if id = 1 then 2 else 1
  allocated_time := fun _ => 1200
  obs_time := fun _ => 600
  used_time := fun _ => 0
  valid_site_times := fun _ _ => {Site.GN}

def scW : Scheduler := ⟨3, 600, oW⟩

def SW : Finset (Nat × Site) := {(1, Site.GN)}

theorem tick_exclusivity_witness :
    ((selNames oW 0 SW).filterMap from_schedule_id).Pairwise
      (fun p q => p.1 ≠ q.1 ∧ p.2 ≠ q.2) :=
  tick_exclusivity scW 0 SW (tickState scW 0 SW) (selNames oW 0 SW)
    (by decide) (tick_eq scW 0 SW)

theorem tick_eligibility_witness :
    ∃ (j : Nat) (site : Site),
      from_schedule_id (to_schedule_id 1 Site.GN) = some ((j : Int), site) ∧
      site ∈ oW.valid_site_times j 0 :=
  tick_eligibility scW 0 SW (tickState scW 0 SW) (selNames oW 0 SW)
    (tick_eq scW 0 SW) (to_schedule_id 1 Site.GN)
    (by rw [show selNames oW 0 SW = [to_schedule_id 1 Site.GN] from rfl]; simp)

/-- A concrete one-job ledger whose job is already done
(`used_time = obs_time = 600`). -/
def oD : Observations where
  num_obs := 1
  priority := fun _ => 1
  allocated_time := fun _ => 600
  obs_time := fun _ => 600
  used_time := fun _ => 600
  valid_site_times := fun _ _ => {Site.GN}

def scD : Scheduler := ⟨1, 600, oD⟩

theorem done_stable_witness :
    scD.observations.is_done 0 = true ∧
    (∀ site, (0, site) ∉ varOrder scD.observations 0) ∧
    ∀ L ∈ [([] : List String)], ∀ s ∈ L, ∀ site,
      from_schedule_id s ≠ some ((0 : Int), site) :=
  done_stable (fun _ => ∅) 1 0 scD scD [[]] 0 rfl (by decide)

theorem tick_used_time_step_witness :
    (tickState scW 0 SW).observations.used_time 1 = scW.observations.used_time 1 ∨
    (tickState scW 0 SW).observations.used_time 1 =
      scW.observations.used_time 1 + scW.timeslot_length :=
  tick_used_time_step scW 0 SW (tickState scW 0 SW) (selNames oW 0 SW) 1
    (by decide) (tick_eq scW 0 SW)

theorem optimalW : optimal scW.observations 0 SW := by
  constructor
  · decide
  · intro S2 hS2
    have hsub : S2 ⊆ ({(0, Site.GN), (1, Site.GN)} : Finset (Nat × Site)) := by
      intro p hp
      have h := hS2.1 p hp
      have h2 := (mem_varOrder scW.observations 0 p).1 h
      obtain ⟨hlt, _, hmem⟩ := h2
      have hsite : p.2 = Site.GN := by
        have hm : p.2 ∈ ({Site.GN} : Finset Site) := hmem
        simpa using hm
      have hlt2 : p.1 < 2 := hlt
      have hor : p.1 = 0 ∨ p.1 = 1 := by omega
      have hpp : p = (p.1, p.2) := rfl
      rcases hor with h0 | h0 <;> rw [hpp, h0, hsite] <;> simp
    have hpow := Finset.mem_powerset.2 hsub
    fin_cases hpow <;>
      first
        | exact absurd hS2 (by decide)
        | simp [objective, SW, scW, oW, Finset.sum_insert, Finset.sum_singleton]

theorem tick_priority_wins_witness :
    ∃ sc2, scW.tick 0 SW = some (sc2, [to_schedule_id 1 Site.GN]) :=
  tick_priority_wins scW 0 Site.GN SW rfl (by decide) (by decide) rfl rfl
    (by decide) rfl optimalW

theorem init_no_validation_witness :
    (Scheduler.init 0 300).timeslots = 0 ∧
    (Scheduler.init 0 300).timeslot_length = 300 ∧
    (Scheduler.init 0 300).schedule (fun _ => ∅) =
      some (Scheduler.init 0 300, []) :=
  init_no_validation 0 300 (fun _ => ∅) (by decide)

theorem from_schedule_id_ignores_leading_field_witness :
    from_schedule_id
        (String.mk (['x'] ++ '_' :: (natRepr 0 ++ '_' :: Site.GN.name.data))) =
      some ((0 : Int), Site.GN) :=
  from_schedule_id_ignores_leading_field ['x'] 0 Site.GN (by decide)

/-- A concrete one-job ledger whose job is not done but is eligible
nowhere. -/
def oE : Observations where
  num_obs := 1
  priority := fun _ => 1
  allocated_time := fun _ => 600
  obs_time := fun _ => 600
  used_time := fun _ => 0
  valid_site_times := fun _ _ => ∅

def scE : Scheduler := ⟨2, 600, oE⟩

theorem tick_no_eligible_witness : scE.tick 0 ∅ = some (scE, []) :=
  tick_no_eligible scE 0 ∅ (by decide)

/-- A concrete one-job ledger with 200 s remaining and a 300 s slot
length. -/
def oT : Observations where
  num_obs := 1
  priority := fun _ => 1
  allocated_time := fun _ => 600
  obs_time := fun _ => 200
  used_time := fun _ => 0
  valid_site_times := fun _ _ => {Site.GN}

def scT : Scheduler := ⟨1, 300, oT⟩

theorem do_work_no_cap_witness :
    scT.observations.is_done 0 = false ∧
    ∃ sc2, scT.do_work (to_schedule_id 0 Site.GN) = some sc2 ∧
      sc2.observations.used_time 0 =
        scT.observations.used_time 0 + scT.timeslot_length ∧
      sc2.observations.obs_time 0 < sc2.observations.used_time 0 :=
  do_work_no_cap scT 0 Site.GN (by norm_num [scT, oT]) (by norm_num [scT, oT])

end SchedGurobi
